import Mathlib

/-!
Verification of the background-agents control plane (session orchestration).

This file gives a shallow embedding of the parts of the codebase that the
verified properties talk about:

- secrets merging (packages/control-plane secrets module, mergeSecrets),
- the limit clamping in the internal HTTP list routes (session route handlers),
- the push coordinator (pushBranchToRemote / handlePushEvent in
  session/sandbox-handler.ts),
- the message queue processor and sandbox event processing
  (processMessageQueue / stopExecution / processSandboxEvent in
  session/sandbox-handler.ts),
- the create-PR route, its manual-PR fallback, and the interleaving of
  concurrent create-PR requests at their await suspension points
  (handleCreatePR / buildManualPrFallbackResponse in the route handler module).

JavaScript machine details are modeled explicitly: JS objects and Maps become
association lists with update-in-place semantics, absent JSON fields become
Option, parseInt NaN becomes Option.none, and UTF-8 byte lengths use
String.utf8ByteSize. The persistent Repository is an external collaborator in
the source (row CRUD behind an interface); the few row queries the handlers
use are modeled from the specification of that interface and are marked as
such in their doc comments.
-/

namespace BackgroundAgents

/-! ## JS object / Map association lists

JS objects and Maps keep at most one entry per key: writing an existing key
updates it in place, writing a new key appends it. All objects in this file
are built from the empty object through objSet, so keys stay unique and the
recursive replace-first formulation below coincides with JS semantics. -/

/-- JS object property write / Map.set: update the entry in place when the key
is present, append it otherwise. -/
def objSet {α : Type} : List (String × α) → String → α → List (String × α)
  | [], k, v => [(k, v)]
  | p :: rest, k, v => if p.1 == k then (k, v) :: rest else p :: objSet rest k v

/-- JS object property read / Map.get: the value of the first entry with the
given key. -/
def objGet {α : Type} (m : List (String × α)) (k : String) : Option α :=
  (m.find? (fun p => p.1 == k)).map (fun p => p.2)

/-- JS Map.delete: remove the entry with the given key. -/
def objDelete {α : Type} (m : List (String × α)) (k : String) : List (String × α) :=
  m.filter (fun p => p.1 != k)

/-- The first defined option: models the JS expression a ?? b. -/
def firstSome {α : Type} (a b : Option α) : Option α :=
  match a with
  | some x => some x
  | none => b

theorem objGet_nil {α : Type} (k : String) : objGet ([] : List (String × α)) k = none := rfl

theorem objGet_cons_pos {α : Type} (p : String × α) (rest : List (String × α)) (k : String)
    (h : (p.1 == k) = true) : objGet (p :: rest) k = some p.2 := by
  simp [objGet, List.find?, h]

theorem objGet_cons_neg {α : Type} (p : String × α) (rest : List (String × α)) (k : String)
    (h : (p.1 == k) = false) : objGet (p :: rest) k = objGet rest k := by
  simp [objGet, List.find?, h]

theorem objGet_objSet_self {α : Type} (k : String) (v : α) :
    ∀ m : List (String × α), objGet (objSet m k v) k = some v := by
  intro m
  induction m with
  | nil => exact objGet_cons_pos (k, v) [] k (by simp)
  | cons p rest ih =>
    by_cases h : (p.1 == k) = true
    · rw [objSet, if_pos h]
      exact objGet_cons_pos (k, v) rest k (by simp)
    · rw [objSet, if_neg h]
      rw [objGet_cons_neg p _ k (by simpa using h)]
      exact ih

theorem objGet_objSet_ne {α : Type} (k k' : String) (v : α) (hk : k' ≠ k) :
    ∀ m : List (String × α), objGet (objSet m k v) k' = objGet m k' := by
  have hne : (k == k') = false := by
    simp only [beq_eq_false_iff_ne, ne_eq]
    exact fun h => hk h.symm
  intro m
  induction m with
  | nil =>
    show objGet [(k, v)] k' = objGet [] k'
    rw [objGet_cons_neg (k, v) [] k' hne]
  | cons p rest ih =>
    by_cases h : (p.1 == k) = true
    · rw [objSet, if_pos h, objGet_cons_neg (k, v) rest k' hne]
      have hpk : p.1 = k := by simpa using h
      rw [objGet_cons_neg p rest k' (by simp [hpk, ← beq_eq_false_iff_ne] at hne ⊢; exact hne)]
    · rw [objSet, if_neg h]
      by_cases hp' : (p.1 == k') = true
      · rw [objGet_cons_pos p _ k' hp', objGet_cons_pos p rest k' hp']
      · rw [objGet_cons_neg p _ k' (by simpa using hp'),
            objGet_cons_neg p rest k' (by simpa using hp')]
        exact ih

theorem objGet_objDelete_self {α : Type} (m : List (String × α)) (k : String) :
    objGet (objDelete m k) k = none := by
  induction m with
  | nil => rfl
  | cons p rest ih =>
    by_cases h : (p.1 == k) = true
    · have hb : (p.1 != k) = false := by simp [bne, h]
      simp only [objDelete, List.filter_cons, hb, if_neg]
      simpa [objDelete] using ih
    · have hb : (p.1 != k) = true := by simp [bne, h]
      simp only [objDelete, List.filter_cons, hb, if_pos]
      rw [objGet_cons_neg p _ k (by simpa using h)]
      simpa [objDelete] using ih

/-! ## Secrets merging (mergeSecrets) -/

/-- normalizeKey from the secrets module: uppercase the key. -/
def normalizeKey (k : String) : String := k.toUpper

/-- UTF-8 byte length of a string, as produced by TextEncoder.encode. -/
def utf8Length (s : String) : Nat := s.utf8ByteSize

/-- The default maxCombinedBytes parameter of mergeSecrets. -/
def defaultMaxCombinedBytes : Nat := 131072

/-- One loop of mergeSecrets: fold a secrets record into a JS object,
uppercasing each key on the way in. -/
def addNormalized (m : List (String × String)) (entries : List (String × String)) :
    List (String × String) :=
  entries.foldl (fun acc p => objSet acc (normalizeKey p.1) p.2) m

/-- mergeSecrets from the secrets module: add global secrets first, then repo
secrets (which therefore override), then sum the UTF-8 byte lengths of the
merged values and compare against maxCombinedBytes. -/
def mergeSecrets (global repo : List (String × String)) (maxCombinedBytes : Nat) :
    List (String × String) × Nat × Bool :=
  let merged := addNormalized (addNormalized [] global) repo
  let totalBytes := merged.foldl (fun acc p => acc + utf8Length p.2) 0
  (merged, totalBytes, decide (totalBytes > maxCombinedBytes))

theorem objGet_addNormalized (k : String) :
    ∀ (entries : List (String × String)) (m : List (String × String)),
      objGet (addNormalized m entries) k =
        firstSome (objGet (addNormalized [] entries) k) (objGet m k) := by
  intro entries
  induction entries with
  | nil =>
    intro m
    show objGet m k = firstSome (objGet [] k) (objGet m k)
    rw [objGet_nil]
    cases objGet m k <;> rfl
  | cons p rest ih =>
    intro m
    have h1 : addNormalized m (p :: rest) =
        addNormalized (objSet m (normalizeKey p.1) p.2) rest := rfl
    have h2 : addNormalized ([] : List (String × String)) (p :: rest) =
        addNormalized (objSet [] (normalizeKey p.1) p.2) rest := rfl
    rw [h1, h2, ih (objSet m (normalizeKey p.1) p.2), ih (objSet [] (normalizeKey p.1) p.2)]
    by_cases hk : k = normalizeKey p.1
    · subst hk
      rw [objGet_objSet_self, objGet_objSet_self]
      cases objGet (addNormalized [] rest) (normalizeKey p.1) <;>
        cases objGet m (normalizeKey p.1) <;> rfl
    · rw [objGet_objSet_ne _ _ _ hk, objGet_objSet_ne _ _ _ hk, objGet_nil]
      cases objGet (addNormalized [] rest) k <;> cases objGet m k <;> rfl

theorem objGet_addNormalized_isSome (k : String) :
    ∀ entries : List (String × String),
      (objGet (addNormalized [] entries) k).isSome =
        entries.any (fun p => normalizeKey p.1 == k) := by
  intro entries
  induction entries with
  | nil => rfl
  | cons p rest ih =>
    have h2 : addNormalized ([] : List (String × String)) (p :: rest) =
        addNormalized (objSet [] (normalizeKey p.1) p.2) rest := rfl
    rw [h2, objGet_addNormalized k rest (objSet [] (normalizeKey p.1) p.2), List.any_cons]
    by_cases hk : k = normalizeKey p.1
    · subst hk
      rw [objGet_objSet_self]
      have hbeq : (normalizeKey p.1 == normalizeKey p.1) = true := by simp
      rw [hbeq]
      cases objGet (addNormalized [] rest) (normalizeKey p.1) <;> rfl
    · have hne : (normalizeKey p.1 == k) = false := by
        simp only [beq_eq_false_iff_ne, ne_eq]
        exact fun h => hk h.symm
      rw [objGet_objSet_ne _ _ _ hk, objGet_nil, hne, ← ih]
      cases objGet (addNormalized [] rest) k <;> rfl

theorem foldl_add_eq_sum_map (f : (String × String) → Nat) :
    ∀ (l : List (String × String)) (n : Nat),
      l.foldl (fun acc p => acc + f p) n = n + (l.map f).sum := by
  intro l
  induction l with
  | nil => simp
  | cons p rest ih =>
    intro n
    simp only [List.foldl_cons, List.map_cons, List.sum_cons]
    rw [ih]
    omega

/-- C9: mergeSecrets merges the two records under uppercase key normalization
with repo values overriding global values, its key set is the union of the
normalized key sets of the inputs, its reported byte total is the sum of the
UTF-8 byte lengths of the merged values, and the exceedsLimit flag is set
exactly when that total exceeds maxCombinedBytes (whose default is 131072). -/
theorem C9_mergeSecrets_correct (global repo : List (String × String)) (maxBytes : Nat) :
    (∀ k, objGet (mergeSecrets global repo maxBytes).1 k =
        firstSome (objGet (addNormalized [] repo) k) (objGet (addNormalized [] global) k))
    ∧ (∀ k, (objGet (mergeSecrets global repo maxBytes).1 k).isSome =
        (global ++ repo).any (fun p => normalizeKey p.1 == k))
    ∧ (mergeSecrets global repo maxBytes).2.1 =
        ((mergeSecrets global repo maxBytes).1.map (fun p => utf8Length p.2)).sum
    ∧ ((mergeSecrets global repo maxBytes).2.2 = true ↔
        (mergeSecrets global repo maxBytes).2.1 > maxBytes)
    ∧ defaultMaxCombinedBytes = 131072 := by
  refine ⟨?_, ?_, ?_, ?_, rfl⟩
  · intro k
    exact objGet_addNormalized k repo (addNormalized [] global)
  · intro k
    have hm : (mergeSecrets global repo maxBytes).1 =
        addNormalized (addNormalized [] global) repo := rfl
    rw [hm, objGet_addNormalized k repo (addNormalized [] global), List.any_append,
        ← objGet_addNormalized_isSome k global, ← objGet_addNormalized_isSome k repo]
    cases objGet (addNormalized [] repo) k <;>
      cases objGet (addNormalized [] global) k <;> rfl
  · have hm : (mergeSecrets global repo maxBytes).2.1 =
        (addNormalized (addNormalized [] global) repo).foldl
          (fun acc p => acc + utf8Length p.2) 0 := rfl
    have hm1 : (mergeSecrets global repo maxBytes).1 =
        addNormalized (addNormalized [] global) repo := rfl
    rw [hm, hm1, foldl_add_eq_sum_map, Nat.zero_add]
  · exact decide_eq_true_iff

/-! ## Limit clamping in the list routes (handleListEvents / handleListMessages)

The handlers compute the repository page limit as
Math.min(parseInt(searchParams.get("limit") ?? "50"), LIMIT). We model JS
parseInt with its default radix (leading whitespace skipped, optional sign,
optional 0x/0X hex prefix, longest digit prefix, NaN when no digit is found),
with Option.none standing for NaN; Math.min propagates NaN. -/

/-- The whitespace characters recognized by the model of JS whitespace
trimming (space, tab, line feed, carriage return, vertical tab, form feed). -/
def isJsWhitespace (c : Char) : Bool :=
  c == ' ' || c == '\t' || c == '\n' || c == '\r' || c == '\x0b' || c == '\x0c'

/-- The numeric value of a hexadecimal digit character, none otherwise. -/
def digitValue (c : Char) : Option Nat :=
  if '0' ≤ c ∧ c ≤ '9' then some (c.toNat - '0'.toNat)
  else if 'a' ≤ c ∧ c ≤ 'f' then some (c.toNat - 'a'.toNat + 10)
  else if 'A' ≤ c ∧ c ≤ 'F' then some (c.toNat - 'A'.toNat + 10)
  else none

/-- Whether a character is a digit of the given radix (10 or 16 here). -/
def isRadixDigit (radix : Nat) (c : Char) : Bool :=
  match digitValue c with
  | some v => decide (v < radix)
  | none => false

/-- The value of a digit string in the given radix. -/
def radixDigitsToNat (radix : Nat) (ds : List Char) : Nat :=
  ds.foldl (fun acc c => acc * radix + (digitValue c).getD 0) 0

/-- JS parseInt with the default radix argument. Returns none for NaN. -/
def jsParseInt (s : String) : Option Int :=
  let cs := s.data.dropWhile isJsWhitespace
  let signBody : Int × List Char :=
    match cs with
    | '-' :: r => (-1, r)
    | '+' :: r => (1, r)
    | r => (1, r)
  let radixBody : Nat × List Char :=
    match signBody.2 with
    | '0' :: 'x' :: r => (16, r)
    | '0' :: 'X' :: r => (16, r)
    | r => (10, r)
  let ds := radixBody.2.takeWhile (isRadixDigit radixBody.1)
  if ds.isEmpty then none
  else some (signBody.1 * (radixDigitsToNat radixBody.1 ds : Int))

/-- JS Math.min of a possibly-NaN value (none) and a number: any comparison
with NaN yields NaN, which Math.min returns. -/
def jsMathMin (a : Option Int) (b : Int) : Option Int :=
  match a with
  | none => none
  | some x => some (min x b)

/-- The limit value handleListEvents passes to repository.listEvents:
Math.min(parseInt(limit ?? "50"), 200). A none limit parameter models an
absent limit query parameter; a none result models NaN. -/
def effectiveEventsLimit (limitParam : Option String) : Option Int :=
  jsMathMin (jsParseInt (limitParam.getD "50")) 200

/-- The limit value handleListMessages passes to repository.listMessages:
Math.min(parseInt(limit ?? "50"), 100). -/
def effectiveMessagesLimit (limitParam : Option String) : Option Int :=
  jsMathMin (jsParseInt (limitParam.getD "50")) 100

/-- C7 counterexample: for the non-numeric limit parameter "abc", the events
route passes NaN (not a number at most 200) to the repository, so the claim
fails for non-numeric limit values. -/
theorem C7_nan_limit_counterexample :
    effectiveEventsLimit (some "abc") = none
    ∧ ¬ (∃ n : Int, effectiveEventsLimit (some "abc") = some n ∧ n ≤ 200)
    ∧ effectiveMessagesLimit (some "abc") = none := by
  refine ⟨rfl, ?_, rfl⟩
  rintro ⟨n, hn, -⟩
  have h0 : effectiveEventsLimit (some "abc") = none := rfl
  rw [h0] at hn
  exact Option.noConfusion hn

/-- C7 (amended): whenever parseInt produces a number (in particular for an
absent limit parameter, which defaults to 50), the limit passed to the
repository is clamped to at most 200 for the events route and at most 100 for
the messages route; a limit parameter that parseInt cannot parse yields NaN,
which is passed through unclamped. -/
theorem C7_limits_clamped (p : Option String) :
    (effectiveEventsLimit p).all (fun n => decide (n ≤ 200)) = true
    ∧ (effectiveMessagesLimit p).all (fun n => decide (n ≤ 100)) = true
    ∧ effectiveEventsLimit none = some 50
    ∧ effectiveMessagesLimit none = some 50 := by
  refine ⟨?_, ?_, rfl, rfl⟩
  · unfold effectiveEventsLimit jsMathMin
    cases jsParseInt (p.getD "50") with
    | none => rfl
    | some x => simp [min_le_right]
  · unfold effectiveMessagesLimit jsMathMin
    cases jsParseInt (p.getD "50") with
    | none => rfl
    | some x => simp [min_le_right]

/-! ## Push coordinator (pushBranchToRemote / handlePushEvent)

pushBranchToRemote keeps a Map from normalized branch name to the pending
resolver of the awaiting caller. We model the resolver map as an association
list from normalized branch name to a request identifier (a Nat standing for
the promise the caller awaits), and handlePushEvent returns, next to the
updated map, which request was resolved or rejected. -/

/-- JS String.trim: drop leading and trailing whitespace (ASCII model). -/
def jsTrim (s : String) : String :=
  String.mk (((s.data.dropWhile isJsWhitespace).reverse.dropWhile isJsWhitespace).reverse)

/-- JS String.toLowerCase (ASCII model: Char.toLower maps A-Z to a-z). -/
def jsToLowerCase (s : String) : String :=
  String.mk (s.data.map Char.toLower)

/-- normalizeBranchName from sandbox-handler.ts: name.trim().toLowerCase(). -/
def normalizeBranchName (s : String) : String :=
  jsToLowerCase (jsTrim s)

/-- Two strings that agree up to letter case: their characters lowercase to
the same sequence. -/
def caseVariant (s t : String) : Prop :=
  s.data.map Char.toLower = t.data.map Char.toLower

instance (s t : String) : Decidable (caseVariant s t) := by
  unfold caseVariant; infer_instance

/-- Outcome of the synchronous prefix of pushBranchToRemote. -/
inductive PushStartOutcome
  | immediateSuccess
  | awaitingPush
  deriving DecidableEq, Repr

structure PushStartState where
  outcome : PushStartOutcome
  resolvers : List (String × Nat)
  commandSent : Bool
  deriving DecidableEq, Repr

/-- The synchronous prefix of pushBranchToRemote from sandbox-handler.ts: with
no sandbox socket it returns success at once, touching neither the resolver
map nor the socket; otherwise it registers a pending resolver under the
normalized branch name and sends the push command, then awaits resolution. -/
def pushBranchStart (sandboxConnected : Bool) (resolvers : List (String × Nat))
    (branchName : String) (reqId : Nat) : PushStartState :=
  if !sandboxConnected then
    { outcome := .immediateSuccess, resolvers := resolvers, commandSent := false }
  else
    { outcome := .awaitingPush,
      resolvers := objSet resolvers (normalizeBranchName branchName) reqId,
      commandSent := true }

/-- What handlePushEvent did to the pending request, if any. -/
inductive PushResolution
  | noMatch
  | resolved (reqId : Nat)
  | rejected (reqId : Nat) (error : String)
  deriving DecidableEq, Repr

/-- The error message a push_error event rejects with: event.error, or the
fixed fallback when the field is absent or empty (the source uses ||, so an
empty string also falls back). -/
def pushErrorMessage (errMsg : Option String) : String :=
  match errMsg with
  | some e => if e == "" then "Push failed" else e
  | none => "Push failed"

/-- handlePushEvent from sandbox-handler.ts: a push_complete (isComplete true)
or push_error event carrying branchName resolves or rejects the resolver
registered under the normalized branch name and deletes its map entry. The
guard is the falsiness check if (!branchName) return, so an event whose
branchName is absent or the empty string is ignored, as is one with no
matching resolver. -/
def handlePushEvent (resolvers : List (String × Nat)) (isComplete : Bool)
    (branchName : Option String) (errMsg : Option String) :
    List (String × Nat) × PushResolution :=
  match branchName with
  | none => (resolvers, .noMatch)
  | some b =>
    if b = "" then (resolvers, .noMatch)
    else
      let nb := normalizeBranchName b
      match objGet resolvers nb with
      | none => (resolvers, .noMatch)
      | some rid =>
        if isComplete then (objDelete resolvers nb, .resolved rid)
        else (objDelete resolvers nb, .rejected rid (pushErrorMessage errMsg))

theorem normalizeBranchName_eq_of_caseVariant (B B2 : String)
    (h : caseVariant (jsTrim B) (jsTrim B2)) :
    normalizeBranchName B = normalizeBranchName B2 := by
  unfold normalizeBranchName jsToLowerCase
  exact congrArg String.mk h

/-- C4 counterexample: the claim fails at B = " " and B2 = "": the two names
differ only by whitespace (both trim to the empty string, so they normalize
to the same key), yet handlePushEvent takes the if (!branchName) return
branch on the empty-string branchName — the event resolves nothing and the
pending resolver registered for " " stays in the map until its timeout. -/
theorem C4_empty_branch_counterexample :
    caseVariant (jsTrim " ") (jsTrim "")
    ∧ normalizeBranchName " " = normalizeBranchName ""
    ∧ handlePushEvent (pushBranchStart true [] " " 7).resolvers true (some "") none
        = ((pushBranchStart true [] " " 7).resolvers, .noMatch)
    ∧ (handlePushEvent (pushBranchStart true [] " " 7).resolvers true
        (some "") none).2 ≠ .resolved 7
    ∧ objGet (handlePushEvent (pushBranchStart true [] " " 7).resolvers true
        (some "") none).1 (normalizeBranchName " ") = some 7 := by
  refine ⟨by decide, rfl, rfl, ?_, rfl⟩
  intro hc
  exact PushResolution.noConfusion hc

/-- C4 (amended): a push registered for branch B (with a sandbox connected)
is resolved by a push_complete event, and rejected by a push_error event,
whose non-empty branchName B2 differs from B only by letter case and/or
leading or trailing whitespace (that is, the trimmed names agree up to
case); both sides key the resolver map by the trimmed lowercased name, and
the entry is removed after resolution. An event whose branchName is the
empty string is ignored by the falsiness guard. -/
theorem C4_push_branch_normalization (resolvers : List (String × Nat))
    (B B2 : String) (rid : Nat) (err : Option String)
    (hvar : caseVariant (jsTrim B) (jsTrim B2))
    (hB2 : B2 ≠ "") :
    handlePushEvent (pushBranchStart true resolvers B rid).resolvers true (some B2) none
      = (objDelete (objSet resolvers (normalizeBranchName B) rid) (normalizeBranchName B),
         .resolved rid)
    ∧ handlePushEvent (pushBranchStart true resolvers B rid).resolvers false (some B2) err
      = (objDelete (objSet resolvers (normalizeBranchName B) rid) (normalizeBranchName B),
         .rejected rid (pushErrorMessage err))
    ∧ objGet (objDelete (objSet resolvers (normalizeBranchName B) rid) (normalizeBranchName B))
        (normalizeBranchName B) = none := by
  have hn : normalizeBranchName B2 = normalizeBranchName B :=
    (normalizeBranchName_eq_of_caseVariant B B2 hvar).symm
  have hres : (pushBranchStart true resolvers B rid).resolvers
      = objSet resolvers (normalizeBranchName B) rid := rfl
  refine ⟨?_, ?_, objGet_objDelete_self _ _⟩
  · simp [handlePushEvent, hres, hn, hB2, objGet_objSet_self]
  · simp [handlePushEvent, hres, hn, hB2, objGet_objSet_self]

/-- C4 witness: a push_complete event for branch "Feature/X " resolves a
pending push registered for branch "feature/x" and removes its resolver. -/
theorem C4_push_branch_normalization_witness :
    handlePushEvent (pushBranchStart true [] "feature/x" 7).resolvers true
        (some "Feature/X ") none
      = (objDelete (objSet [] (normalizeBranchName "feature/x") 7)
           (normalizeBranchName "feature/x"), .resolved 7) :=
  (C4_push_branch_normalization [] "feature/x" "Feature/X " 7 none (by decide) (by decide)).1

/-- C5: with no sandbox socket connected, pushBranchToRemote returns success
immediately, registers no pending resolver, and sends no push command. -/
theorem C5_push_without_sandbox (resolvers : List (String × Nat))
    (branchName : String) (reqId : Nat) :
    pushBranchStart false resolvers branchName reqId
      = { outcome := .immediateSuccess, resolvers := resolvers, commandSent := false } :=
  rfl

/-! ## Session orchestration state (sandbox-handler.ts)

The session actor state visible to processMessageQueue, stopExecution and
processSandboxEvent. Repository rows (messages, events) and sandbox fields
live in the state; outbound effects (client broadcasts, sandbox commands,
slack-bot callback notifications, snapshot triggers) are recorded as traces.
queueRuns is a ghost counter recording each entry into processMessageQueue;
it influences nothing else. The prompt command payload (content, resolved
model, reasoning effort, author info) is summarized by the message id, since
no verified property depends on it. -/

inductive MessageStatus
  | pending
  | processing
  | completed
  | failed
  deriving DecidableEq

structure Message where
  id : String
  status : MessageStatus
  createdAt : Nat
  startedAt : Option Nat
  completedAt : Option Nat
  deriving DecidableEq

/-- The sandbox event types of the source (VALID_EVENT_TYPES). -/
inductive SEventType
  | heartbeat
  | token
  | executionComplete
  | gitSync
  | pushComplete
  | pushError
  | toolCall
  | toolResult
  | error
  | userMessage
  deriving DecidableEq

/-- A sandbox event. Option fields with a question mark model JSON fields
that may be absent from the event payload. -/
structure SEvent where
  type : SEventType
  messageId? : Option String
  success : Bool
  sha? : Option String
  gitStatus : String
  branchName? : Option String
  error? : Option String
  deriving DecidableEq

/-- A persisted Event row (the data column holding the raw event JSON is
determined by the event and not repeated here). -/
structure EventRow where
  id : String
  type : SEventType
  messageId : Option String
  createdAt : Nat
  deriving DecidableEq

inductive Broadcast
  | sandboxEvent (e : SEvent)
  | processingStatus (isProcessing : Bool)
  | sandboxSpawning
  deriving DecidableEq

inductive SandboxCommand
  | prompt (messageId : String)
  | stop
  deriving DecidableEq

structure SState where
  messages : List Message
  events : List EventRow
  broadcasts : List Broadcast
  sandboxConnected : Bool
  sandboxCommands : List SandboxCommand
  sandboxLastHeartbeat : Option Nat
  sandboxGitSyncStatus : Option String
  sessionCurrentSha : Option String
  notifications : List (String × Bool)
  snapshotTriggers : Nat
  lastActivity : Option Nat
  inactivityCheckScheduled : Bool
  spawnRequested : Bool
  queueRuns : Nat
  pendingPushResolvers : List (String × Nat)
  pushResolutions : List PushResolution
  deriving DecidableEq

/-- Modelled from the spec: Repository lookup of the Message with
status = processing (the single-flight slot). -/
def getProcessingMessage (msgs : List Message) : Option Message :=
  msgs.find? (fun m => decide (m.status = .processing))

/-- Modelled from the spec: Repository lookup of the oldest pending Message
(FIFO by creation order); rows are held in creation order, so this is the
first pending row. -/
def getNextPendingMessage (msgs : List Message) : Option Message :=
  msgs.find? (fun m => decide (m.status = .pending))

/-- Modelled from the spec: Repository update marking a Message processing and
stamping its started timestamp. -/
def updateMessageToProcessing (msgs : List Message) (mid : String) (now : Nat) :
    List Message :=
  msgs.map (fun m =>
    if decide (m.id = mid) then { m with status := .processing, startedAt := some now } else m)

/-- Modelled from the spec: Repository update setting a Message to a terminal
status and stamping its completed timestamp. -/
def updateMessageCompletion (msgs : List Message) (mid : String) (st : MessageStatus)
    (now : Nat) : List Message :=
  msgs.map (fun m =>
    if decide (m.id = mid) then { m with status := st, completedAt := some now } else m)

/-- The number of Messages with status = processing. -/
def processingCount (msgs : List Message) : Nat :=
  msgs.countP (fun m => decide (m.status = .processing))

/-- The status of the Message row with the given id. -/
def messageStatusById (msgs : List Message) (mid : String) : Option MessageStatus :=
  (msgs.find? (fun m => decide (m.id = mid))).map (fun m => m.status)

/-- processMessageQueue from sandbox-handler.ts: return if a Message is
already processing; otherwise take the oldest pending Message; if no sandbox
socket is connected, broadcast sandbox_spawning and request a spawn without
marking anything; otherwise mark the Message processing, broadcast the
processing status, refresh the activity timer and dispatch the prompt. -/
def processMessageQueue (s : SState) (now : Nat) : SState :=
  let s0 := { s with queueRuns := s.queueRuns + 1 }
  match getProcessingMessage s0.messages with
  | some _ => s0
  | none =>
    match getNextPendingMessage s0.messages with
    | none => s0
    | some msg =>
      if !s0.sandboxConnected then
        { s0 with broadcasts := s0.broadcasts ++ [.sandboxSpawning], spawnRequested := true }
      else
        { s0 with
          messages := updateMessageToProcessing s0.messages msg.id now,
          broadcasts := s0.broadcasts ++ [.processingStatus true],
          lastActivity := some now,
          sandboxCommands := s0.sandboxCommands ++ [.prompt msg.id] }

/-- The synthetic execution_complete event stopExecution broadcasts (its
sandboxId and timestamp fields are not modeled; no property reads them). -/
def syntheticExecComplete (mid : String) : SEvent :=
  { type := .executionComplete, messageId? := some mid, success := false,
    sha? := none, gitStatus := "", branchName? := none, error? := none }

/-- The trailing step of stopExecution: forward a stop command to the sandbox
socket when one is connected. -/
def forwardStopCommand (s : SState) : SState :=
  if s.sandboxConnected then
    { s with sandboxCommands := s.sandboxCommands ++ [.stop] }
  else s

/-- stopExecution from sandbox-handler.ts: if a Message is processing, mark it
failed, broadcast a synthetic execution_complete and notify the slack-bot
callback; always broadcast processing_status false and forward a stop command
to the sandbox socket when one is connected. -/
def stopExecution (s : SState) (now : Nat) : SState :=
  forwardStopCommand
    (match getProcessingMessage s.messages with
     | some pm =>
       { s with
         messages := updateMessageCompletion s.messages pm.id .failed now,
         broadcasts := s.broadcasts ++
           [.sandboxEvent (syntheticExecComplete pm.id), .processingStatus false],
         notifications := s.notifications ++ [(pm.id, false)] }
     | none => { s with broadcasts := s.broadcasts ++ [.processingStatus false] })

/-- The session current-sha update of the git_sync branch: the source guard is
the truthiness check if (event.sha), so only a present, non-empty sha
overwrites the current value. -/
def updatedSessionSha (sha? : Option String) (current : Option String) : Option String :=
  match sha? with
  | some sha => if sha = "" then current else some sha
  | none => current

/-- The messageId a persisted event is attributed to: the messageId carried in
the event when present, else the currently processing Message, else null. -/
def attributedMessageId (msgs : List Message) (ev : SEvent) : Option String :=
  firstSome ev.messageId? ((getProcessingMessage msgs).map (fun m => m.id))

/-- processSandboxEvent from sandbox-handler.ts. A heartbeat only updates the
Sandbox last-heartbeat field. Every other event is persisted as an Event row
attributed via attributedMessageId. execution_complete updates the Message and
notifies clients and the callback channel only when the Message is still the
processing one, and always triggers the snapshot, refreshes the activity
timer, schedules the inactivity check and drains the queue. git_sync updates
the Sandbox git-sync status and, when a sha is present, the Session current
sha. push_complete and push_error resolve the pending push resolver. All
non-execution_complete events are broadcast to clients at the end. -/
def processSandboxEvent (s : SState) (ev : SEvent) (eventId : String) (now : Nat) : SState :=
  if ev.type = .heartbeat then
    { s with sandboxLastHeartbeat := some now }
  else
    let processingMessage := getProcessingMessage s.messages
    let messageId := attributedMessageId s.messages ev
    let s1 := { s with events := s.events ++
      [{ id := eventId, type := ev.type, messageId := messageId, createdAt := now }] }
    match ev.type with
    | .executionComplete =>
      let s2 : SState :=
        match messageId with
        | some cid =>
          if processingMessage.map (fun m => m.id) = some cid then
            let st : MessageStatus := if ev.success then .completed else .failed
            let msgs2 := updateMessageCompletion s1.messages cid st now
            { s1 with
              messages := msgs2,
              broadcasts := s1.broadcasts ++
                [.sandboxEvent ev, .processingStatus (getProcessingMessage msgs2).isSome],
              notifications := s1.notifications ++ [(cid, ev.success)] }
          else s1
        | none => s1
      let s3 := { s2 with
        snapshotTriggers := s2.snapshotTriggers + 1,
        lastActivity := some now,
        inactivityCheckScheduled := true }
      processMessageQueue s3 now
    | .gitSync =>
      let s2 := { s1 with
        sandboxGitSyncStatus := some ev.gitStatus,
        sessionCurrentSha := updatedSessionSha ev.sha? s1.sessionCurrentSha }
      { s2 with broadcasts := s2.broadcasts ++ [.sandboxEvent ev] }
    | .pushComplete =>
      let pr := handlePushEvent s1.pendingPushResolvers true ev.branchName? ev.error?
      { s1 with
        pendingPushResolvers := pr.1,
        pushResolutions := s1.pushResolutions ++ [pr.2],
        broadcasts := s1.broadcasts ++ [.sandboxEvent ev] }
    | .pushError =>
      let pr := handlePushEvent s1.pendingPushResolvers false ev.branchName? ev.error?
      { s1 with
        pendingPushResolvers := pr.1,
        pushResolutions := s1.pushResolutions ++ [pr.2],
        broadcasts := s1.broadcasts ++ [.sandboxEvent ev] }
    | _ => { s1 with broadcasts := s1.broadcasts ++ [.sandboxEvent ev] }

/-- The number of execution_complete broadcasts carrying the given messageId. -/
def execCompleteBroadcastCount (mid : String) (bs : List Broadcast) : Nat :=
  bs.countP (fun b =>
    match b with
    | .sandboxEvent e =>
        decide (e.type = .executionComplete) && decide (e.messageId? = some mid)
    | _ => false)

/-- The all-empty session state, used to build concrete witness states. -/
def emptyState : SState :=
  { messages := [], events := [], broadcasts := [], sandboxConnected := false,
    sandboxCommands := [], sandboxLastHeartbeat := none, sandboxGitSyncStatus := none,
    sessionCurrentSha := none, notifications := [], snapshotTriggers := 0,
    lastActivity := none, inactivityCheckScheduled := false, spawnRequested := false,
    queueRuns := 0, pendingPushResolvers := [], pushResolutions := [] }

/-! ## Helper lemmas about the orchestration state -/

theorem eq_of_mem_of_length_le_one {α : Type} {l : List α} {a b : α}
    (h : l.length ≤ 1) (ha : a ∈ l) (hb : b ∈ l) : a = b := by
  match l with
  | [] => cases ha
  | [x] =>
    rw [List.mem_singleton] at ha hb
    rw [ha, hb]
  | x :: y :: t => simp at h

theorem eq_of_countP_le_one {α : Type} {l : List α} {p : α → Bool}
    (h : l.countP p ≤ 1) {a b : α} (ha : a ∈ l) (hpa : p a = true)
    (hb : b ∈ l) (hpb : p b = true) : a = b := by
  have ha2 : a ∈ l.filter p := List.mem_filter.mpr ⟨ha, hpa⟩
  have hb2 : b ∈ l.filter p := List.mem_filter.mpr ⟨hb, hpb⟩
  have hl : (l.filter p).length ≤ 1 := by
    rw [← List.countP_eq_length_filter]
    exact h
  exact eq_of_mem_of_length_le_one hl ha2 hb2

theorem getProcessingMessage_spec {msgs : List Message} {pm : Message}
    (h : getProcessingMessage msgs = some pm) :
    pm ∈ msgs ∧ pm.status = .processing := by
  refine ⟨List.mem_of_find?_eq_some h, ?_⟩
  have := List.find?_some h
  exact of_decide_eq_true this

theorem getProcessingMessage_none_spec {msgs : List Message}
    (h : getProcessingMessage msgs = none) :
    ∀ m ∈ msgs, m.status ≠ .processing := by
  intro m hm
  have := List.find?_eq_none.mp h m hm
  intro hc
  exact this (decide_eq_true hc)

theorem getNextPendingMessage_spec {msgs : List Message} {msg : Message}
    (h : getNextPendingMessage msgs = some msg) :
    msg ∈ msgs ∧ msg.status = .pending := by
  refine ⟨List.mem_of_find?_eq_some h, ?_⟩
  have := List.find?_some h
  exact of_decide_eq_true this

/-- A message uniquely identified by its id under a Nodup id list occurs at
most once in any per-id count. -/
theorem countP_id_le_one {msgs : List Message}
    (h : (msgs.map Message.id).Nodup) (x : String) :
    msgs.countP (fun m => decide (m.id = x)) ≤ 1 := by
  induction msgs with
  | nil => simp
  | cons m rest ih =>
    rw [List.map_cons, List.nodup_cons] at h
    rw [List.countP_cons]
    by_cases hx : m.id = x
    · have hz : rest.countP (fun m => decide (m.id = x)) = 0 := by
        rw [List.countP_eq_zero]
        intro a ha hpa
        have hax : a.id = x := of_decide_eq_true hpa
        exact h.1 (by
          rw [hx]
          exact hax ▸ List.mem_map_of_mem Message.id ha)
      simp [hz, hx]
    · have hd : (decide (m.id = x)) = false := decide_eq_false hx
      simpa [hd] using ih h.2

theorem processMessageQueue_busy (s : SState) (now : Nat) (pm : Message)
    (hp : getProcessingMessage s.messages = some pm) :
    processMessageQueue s now = { s with queueRuns := s.queueRuns + 1 } := by
  unfold processMessageQueue
  simp [hp]

theorem processMessageQueue_empty (s : SState) (now : Nat)
    (hp : getProcessingMessage s.messages = none)
    (hn : getNextPendingMessage s.messages = none) :
    processMessageQueue s now = { s with queueRuns := s.queueRuns + 1 } := by
  unfold processMessageQueue
  simp [hp, hn]

theorem processMessageQueue_spawn (s : SState) (now : Nat) (msg : Message)
    (hp : getProcessingMessage s.messages = none)
    (hn : getNextPendingMessage s.messages = some msg)
    (hs : s.sandboxConnected = false) :
    processMessageQueue s now =
      { s with queueRuns := s.queueRuns + 1,
               broadcasts := s.broadcasts ++ [.sandboxSpawning],
               spawnRequested := true } := by
  unfold processMessageQueue
  simp [hp, hn, hs]

theorem processMessageQueue_dispatch (s : SState) (now : Nat) (msg : Message)
    (hp : getProcessingMessage s.messages = none)
    (hn : getNextPendingMessage s.messages = some msg)
    (hs : s.sandboxConnected = true) :
    processMessageQueue s now =
      { s with queueRuns := s.queueRuns + 1,
               messages := updateMessageToProcessing s.messages msg.id now,
               broadcasts := s.broadcasts ++ [.processingStatus true],
               lastActivity := some now,
               sandboxCommands := s.sandboxCommands ++ [.prompt msg.id] } := by
  unfold processMessageQueue
  simp [hp, hn, hs]

/-- C1: the queue processor preserves the single-flight invariant: when a
Message is already processing, processMessageQueue changes nothing and
dispatches nothing (only the ghost run counter moves); otherwise any Message
it leaves in status processing is the single oldest pending Message, so at
most one Message is processing afterwards. -/
theorem C1_queue_single_flight (s : SState) (now : Nat)
    (hids : (s.messages.map Message.id).Nodup)
    (hinv : processingCount s.messages ≤ 1) :
    processingCount (processMessageQueue s now).messages ≤ 1
    ∧ (getProcessingMessage s.messages ≠ none →
        processMessageQueue s now = { s with queueRuns := s.queueRuns + 1 })
    ∧ (getProcessingMessage s.messages = none →
        ∀ m ∈ (processMessageQueue s now).messages, m.status = .processing →
          some m.id = (getNextPendingMessage s.messages).map Message.id) := by
  cases hp : getProcessingMessage s.messages with
  | some pm =>
    rw [processMessageQueue_busy s now pm hp]
    exact ⟨hinv, fun _ => rfl, fun h => absurd h (by simp)⟩
  | none =>
    cases hn : getNextPendingMessage s.messages with
    | none =>
      rw [processMessageQueue_empty s now hp hn]
      refine ⟨hinv, fun h => absurd rfl h, fun _ m hm hproc => ?_⟩
      exact absurd hproc (getProcessingMessage_none_spec hp m hm)
    | some msg =>
      cases hs : s.sandboxConnected with
      | false =>
        rw [processMessageQueue_spawn s now msg hp hn hs]
        refine ⟨hinv, fun h => absurd rfl h, fun _ m hm hproc => ?_⟩
        exact absurd hproc (getProcessingMessage_none_spec hp m hm)
      | true =>
        rw [processMessageQueue_dispatch s now msg hp hn hs]
        refine ⟨?_, fun h => absurd rfl h, fun _ m hm hproc => ?_⟩
        · show processingCount (updateMessageToProcessing s.messages msg.id now) ≤ 1
          unfold processingCount updateMessageToProcessing
          rw [List.countP_map]
          refine le_trans (List.countP_mono_left ?_) (countP_id_le_one hids msg.id)
          intro a ha hpa
          by_cases hax : a.id = msg.id
          · exact decide_eq_true hax
          · simp only [Function.comp] at hpa
            simp [hax] at hpa
            exact absurd hpa (getProcessingMessage_none_spec hp a ha)
        · obtain ⟨a, ha, rfl⟩ := List.mem_map.mp hm
          by_cases hax : a.id = msg.id
          · simp [hax]
          · simp [hax] at hproc
            exact absurd hproc (getProcessingMessage_none_spec hp a ha)

/-- C1 witness: a state with one pending message and a connected sandbox
satisfies the hypotheses, and running the queue leaves at most one processing
message. -/
theorem C1_queue_single_flight_witness :
    processingCount (processMessageQueue
      { emptyState with
        messages := [{ id := "m1", status := .pending, createdAt := 1,
                       startedAt := none, completedAt := none }],
        sandboxConnected := true } 5).messages ≤ 1 :=
  (C1_queue_single_flight _ 5 (by decide) (by decide)).1

/-- Fields of the state the queue processor never touches, the ghost run
counter, and the execution-complete broadcast count it preserves. -/
theorem processMessageQueue_frame (s : SState) (now : Nat) :
    (processMessageQueue s now).events = s.events
    ∧ (processMessageQueue s now).notifications = s.notifications
    ∧ (processMessageQueue s now).snapshotTriggers = s.snapshotTriggers
    ∧ (processMessageQueue s now).inactivityCheckScheduled = s.inactivityCheckScheduled
    ∧ (processMessageQueue s now).queueRuns = s.queueRuns + 1
    ∧ ((processMessageQueue s now).lastActivity = s.lastActivity
        ∨ (processMessageQueue s now).lastActivity = some now)
    ∧ ∀ mid, execCompleteBroadcastCount mid (processMessageQueue s now).broadcasts
        = execCompleteBroadcastCount mid s.broadcasts := by
  cases hp : getProcessingMessage s.messages with
  | some pm =>
    rw [processMessageQueue_busy s now pm hp]
    exact ⟨rfl, rfl, rfl, rfl, rfl, Or.inl rfl, fun _ => rfl⟩
  | none =>
    cases hn : getNextPendingMessage s.messages with
    | none =>
      rw [processMessageQueue_empty s now hp hn]
      exact ⟨rfl, rfl, rfl, rfl, rfl, Or.inl rfl, fun _ => rfl⟩
    | some msg =>
      cases hs : s.sandboxConnected with
      | false =>
        rw [processMessageQueue_spawn s now msg hp hn hs]
        refine ⟨rfl, rfl, rfl, rfl, rfl, Or.inl rfl, fun mid => ?_⟩
        simp [execCompleteBroadcastCount, List.countP_append, List.countP_cons]
      | true =>
        rw [processMessageQueue_dispatch s now msg hp hn hs]
        refine ⟨rfl, rfl, rfl, rfl, rfl, Or.inr rfl, fun mid => ?_⟩
        simp [execCompleteBroadcastCount, List.countP_append, List.countP_cons]

theorem processMessageQueue_events (s : SState) (now : Nat) :
    (processMessageQueue s now).events = s.events :=
  (processMessageQueue_frame s now).1

/-- Every non-heartbeat sandbox event appends exactly one Event row, stamped
with the attribution computed before any state change. -/
theorem processSandboxEvent_events_append (s : SState) (ev : SEvent) (eid : String)
    (now : Nat) (h : ev.type ≠ .heartbeat) :
    (processSandboxEvent s ev eid now).events =
      s.events ++ [{ id := eid, type := ev.type,
                     messageId := attributedMessageId s.messages ev, createdAt := now }] := by
  simp only [processSandboxEvent]
  rw [if_neg h]
  cases hty : ev.type with
  | heartbeat => exact absurd hty h
  | executionComplete =>
    rw [processMessageQueue_events]
    split
    · split
      · rfl
      · rfl
    · rfl
  | gitSync => rfl
  | token => rfl
  | pushComplete => rfl
  | pushError => rfl
  | toolCall => rfl
  | toolResult => rfl
  | error => rfl
  | userMessage => rfl

/-- C8: a heartbeat event only updates the Sandbox last-heartbeat field — no
Event row, no message change, no broadcast, nothing else — while every other
event type is persisted as an Event row. -/
theorem C8_heartbeat_frame (s : SState) (ev : SEvent) (eid : String) (now : Nat) :
    (ev.type = .heartbeat →
      processSandboxEvent s ev eid now = { s with sandboxLastHeartbeat := some now })
    ∧ (ev.type ≠ .heartbeat →
      (processSandboxEvent s ev eid now).events =
        s.events ++ [{ id := eid, type := ev.type,
                       messageId := attributedMessageId s.messages ev, createdAt := now }]) := by
  constructor
  · intro h
    simp only [processSandboxEvent]
    rw [if_pos h]
  · exact processSandboxEvent_events_append s ev eid now

/-- A heartbeat event, as the sandbox sends it. -/
def heartbeatEventW : SEvent :=
  { type := .heartbeat, messageId? := none, success := false, sha? := none,
    gitStatus := "", branchName? := none, error? := none }

/-- A token stream event carrying an explicit messageId. -/
def tokenEventW : SEvent :=
  { type := .token, messageId? := some "m0", success := false, sha? := none,
    gitStatus := "", branchName? := none, error? := none }

/-- A processing message row used in concrete witness states. -/
def msgProcessing1 : Message :=
  { id := "m1", status := .processing, createdAt := 0, startedAt := some 0,
    completedAt := none }

/-- A state whose only message is processing, with a connected sandbox. -/
def stateProcessing1 : SState :=
  { emptyState with messages := [msgProcessing1], sandboxConnected := true }

/-- C8 witness: on a concrete state, a heartbeat leaves everything but the
last-heartbeat field unchanged, and a token event appends an Event row. -/
theorem C8_heartbeat_frame_witness :
    processSandboxEvent emptyState heartbeatEventW "e1" 7
      = { emptyState with sandboxLastHeartbeat := some 7 }
    ∧ (processSandboxEvent emptyState tokenEventW "e2" 8).events
      = emptyState.events ++
        [{ id := "e2", type := tokenEventW.type,
           messageId := attributedMessageId emptyState.messages tokenEventW,
           createdAt := 8 }] :=
  ⟨(C8_heartbeat_frame emptyState heartbeatEventW "e1" 7).1 rfl,
   (C8_heartbeat_frame emptyState tokenEventW "e2" 8).2 (by decide)⟩

/-- C10: a persisted non-heartbeat event is attributed to the messageId inside
the event whenever one is present; only an event carrying no messageId is
attributed to the currently processing Message (null when none is
processing), so an event carrying the id of an earlier message is never
attributed to a newer processing message. -/
theorem C10_event_attribution (s : SState) (ev : SEvent) (eid : String) (now : Nat)
    (h : ev.type ≠ .heartbeat) :
    (processSandboxEvent s ev eid now).events =
      s.events ++ [{ id := eid, type := ev.type,
                     messageId := attributedMessageId s.messages ev, createdAt := now }]
    ∧ (∀ mid, ev.messageId? = some mid → attributedMessageId s.messages ev = some mid)
    ∧ (ev.messageId? = none →
        attributedMessageId s.messages ev =
          (getProcessingMessage s.messages).map (fun m => m.id))
    ∧ (∀ mid pm, ev.messageId? = some mid → getProcessingMessage s.messages = some pm →
        pm.id ≠ mid → attributedMessageId s.messages ev ≠ some pm.id) := by
  refine ⟨processSandboxEvent_events_append s ev eid now h, ?_, ?_, ?_⟩
  · intro mid hm
    simp [attributedMessageId, hm, firstSome]
  · intro hm
    simp [attributedMessageId, hm, firstSome]
  · intro mid pm hm hp hne
    simp only [attributedMessageId, hm, firstSome]
    intro hc
    exact hne (Option.some.inj hc).symm

/-- C10 witness: a token event carrying the id "m0" of an earlier message is
not attributed to the processing message "m1". -/
theorem C10_event_attribution_witness :
    attributedMessageId stateProcessing1.messages tokenEventW ≠ some "m1" :=
  (C10_event_attribution stateProcessing1 tokenEventW "e1" 9 (by decide)).2.2.2
    "m0" msgProcessing1 rfl (by decide) (by decide)

/-- Forwarding the stop command only adds to sandboxCommands. -/
theorem forwardStopCommand_frame (s : SState) :
    (forwardStopCommand s).messages = s.messages
    ∧ (forwardStopCommand s).broadcasts = s.broadcasts
    ∧ (forwardStopCommand s).notifications = s.notifications
    ∧ (forwardStopCommand s).events = s.events
    ∧ (forwardStopCommand s).snapshotTriggers = s.snapshotTriggers
    ∧ (forwardStopCommand s).lastActivity = s.lastActivity
    ∧ (forwardStopCommand s).inactivityCheckScheduled = s.inactivityCheckScheduled
    ∧ (forwardStopCommand s).queueRuns = s.queueRuns := by
  unfold forwardStopCommand
  split <;> exact ⟨rfl, rfl, rfl, rfl, rfl, rfl, rfl, rfl⟩

/-- What stopExecution does when a Message is processing: mark it failed,
broadcast the synthetic execution_complete followed by processing_status
false, notify the callback channel — and touch nothing else (the stop command
forwarded to the sandbox only adds to sandboxCommands). -/
theorem stopExecution_processing_spec (s : SState) (now : Nat) (pm : Message)
    (hp : getProcessingMessage s.messages = some pm) :
    (stopExecution s now).messages = updateMessageCompletion s.messages pm.id .failed now
    ∧ (stopExecution s now).broadcasts
        = s.broadcasts ++ [.sandboxEvent (syntheticExecComplete pm.id), .processingStatus false]
    ∧ (stopExecution s now).notifications = s.notifications ++ [(pm.id, false)]
    ∧ (stopExecution s now).events = s.events
    ∧ (stopExecution s now).snapshotTriggers = s.snapshotTriggers
    ∧ (stopExecution s now).lastActivity = s.lastActivity
    ∧ (stopExecution s now).inactivityCheckScheduled = s.inactivityCheckScheduled
    ∧ (stopExecution s now).queueRuns = s.queueRuns := by
  unfold stopExecution
  rw [hp]
  exact ⟨(forwardStopCommand_frame _).1, (forwardStopCommand_frame _).2.1,
    (forwardStopCommand_frame _).2.2.1, (forwardStopCommand_frame _).2.2.2.1,
    (forwardStopCommand_frame _).2.2.2.2.1, (forwardStopCommand_frame _).2.2.2.2.2.1,
    (forwardStopCommand_frame _).2.2.2.2.2.2.1, (forwardStopCommand_frame _).2.2.2.2.2.2.2⟩

/-- Failing the unique processing message leaves no processing message. -/
theorem getProcessingMessage_updateCompletion_none (msgs : List Message) (pm : Message)
    (now : Nat)
    (hp : getProcessingMessage msgs = some pm)
    (hinv : processingCount msgs ≤ 1) :
    getProcessingMessage (updateMessageCompletion msgs pm.id .failed now) = none := by
  have hpm := getProcessingMessage_spec hp
  rw [getProcessingMessage, List.find?_eq_none]
  intro x hx
  obtain ⟨a, ha, rfl⟩ := List.mem_map.mp hx
  by_cases hax : a.id = pm.id
  · simp [hax]
  · simp [hax]
    intro hc
    have : a = pm :=
      eq_of_countP_le_one hinv ha (decide_eq_true hc) hpm.1 (decide_eq_true hpm.2)
    exact hax (by rw [this])

theorem messageStatusById_cons_pos (a : Message) (rest : List Message) (mid : String)
    (h : a.id = mid) :
    messageStatusById (a :: rest) mid = some a.status := by
  simp [messageStatusById, List.find?, h]

theorem messageStatusById_cons_neg (a : Message) (rest : List Message) (mid : String)
    (h : ¬ a.id = mid) :
    messageStatusById (a :: rest) mid = messageStatusById rest mid := by
  simp [messageStatusById, List.find?, h]

/-- A per-message rewrite that keeps ids and sets the status of the rows with
the given id gives that id the new status. -/
theorem messageStatusById_map_self (f : Message → Message) (msgs : List Message)
    (mid : String) (st : MessageStatus)
    (hid : ∀ m, (f m).id = m.id)
    (hset : ∀ m, m.id = mid → (f m).status = st)
    (hmem : ∃ m ∈ msgs, m.id = mid) :
    messageStatusById (msgs.map f) mid = some st := by
  revert hmem
  induction msgs with
  | nil =>
    intro hmem
    obtain ⟨m, hm, _⟩ := hmem
    cases hm
  | cons a rest ih =>
    intro hmem
    rw [List.map_cons]
    by_cases hax : a.id = mid
    · rw [messageStatusById_cons_pos _ _ _ ((hid a).trans hax), hset a hax]
    · rw [messageStatusById_cons_neg _ _ _ (by rw [hid a]; exact hax)]
      obtain ⟨m, hm, hmid⟩ := hmem
      rcases List.mem_cons.mp hm with rfl | hrest
      · exact absurd hmid hax
      · exact ih ⟨m, hrest, hmid⟩

/-- A per-message rewrite that keeps ids and fixes the rows with the looked-up
id leaves that lookup unchanged. -/
theorem messageStatusById_map_ne (f : Message → Message) (msgs : List Message)
    (mid2 : String)
    (hid : ∀ m, (f m).id = m.id)
    (hfix : ∀ m ∈ msgs, m.id = mid2 → f m = m) :
    messageStatusById (msgs.map f) mid2 = messageStatusById msgs mid2 := by
  induction msgs with
  | nil => rfl
  | cons a rest ih =>
    rw [List.map_cons]
    by_cases h2 : a.id = mid2
    · rw [hfix a (List.mem_cons_self a rest) h2]
      rw [messageStatusById_cons_pos _ _ _ h2, messageStatusById_cons_pos _ _ _ h2]
    · rw [messageStatusById_cons_neg _ _ _ (by rw [hid a]; exact h2),
          messageStatusById_cons_neg _ _ _ h2]
      exact ih (fun m hm => hfix m (List.mem_cons_of_mem a hm))

theorem messageStatusById_updateCompletion_self (msgs : List Message) (mid : String)
    (st : MessageStatus) (now : Nat)
    (hmem : ∃ m ∈ msgs, m.id = mid) :
    messageStatusById (updateMessageCompletion msgs mid st now) mid = some st := by
  unfold updateMessageCompletion
  refine messageStatusById_map_self _ _ _ _ ?_ ?_ hmem
  · intro m
    split <;> rfl
  · intro m hmid
    simp [hmid]

theorem messageStatusById_updateToProcessing_ne (msgs : List Message) (mid mid2 : String)
    (now : Nat) (hne : mid ≠ mid2) :
    messageStatusById (updateMessageToProcessing msgs mid now) mid2 =
      messageStatusById msgs mid2 := by
  unfold updateMessageToProcessing
  refine messageStatusById_map_ne _ _ _ ?_ ?_
  · intro m
    split <;> rfl
  · intro m _ hmid2
    have hx : ¬ m.id = mid := by
      rw [hmid2]
      exact fun hc => hne hc.symm
    simp [hx]

/-- The message updates preserve the id column. -/
theorem map_id_updateCompletion (msgs : List Message) (mid : String)
    (st : MessageStatus) (now : Nat) :
    (updateMessageCompletion msgs mid st now).map Message.id = msgs.map Message.id := by
  unfold updateMessageCompletion
  rw [List.map_map]
  apply List.map_congr_left
  intro a _
  by_cases hax : a.id = mid <;> simp [hax]

/-- A failed message row stays failed across a queue run: the queue only
marks a pending row processing, and under unique ids that row is different. -/
theorem messageStatusById_queue_preserves_failed (s : SState) (now : Nat) (mid : String)
    (hids : (s.messages.map Message.id).Nodup)
    (hst : messageStatusById s.messages mid = some .failed) :
    messageStatusById (processMessageQueue s now).messages mid = some .failed := by
  cases hp : getProcessingMessage s.messages with
  | some pm =>
    rw [processMessageQueue_busy s now pm hp]
    exact hst
  | none =>
    cases hn : getNextPendingMessage s.messages with
    | none =>
      rw [processMessageQueue_empty s now hp hn]
      exact hst
    | some msg =>
      cases hs : s.sandboxConnected with
      | false =>
        rw [processMessageQueue_spawn s now msg hp hn hs]
        exact hst
      | true =>
        rw [processMessageQueue_dispatch s now msg hp hn hs]
        show messageStatusById (updateMessageToProcessing s.messages msg.id now) mid
          = some .failed
        obtain ⟨e, he, hestatus⟩ := Option.map_eq_some'.mp hst
        have hemem : e ∈ s.messages := List.mem_of_find?_eq_some he
        have hpe := List.find?_some he
        have heid : e.id = mid := of_decide_eq_true hpe
        have hpend := getNextPendingMessage_spec hn
        have hne : msg.id ≠ mid := by
          intro hmsgid
          have : e = msg := by
            refine List.inj_on_of_nodup_map hids hemem hpend.1 ?_
            rw [heid, hmsgid]
          rw [← this] at hpend
          rw [hestatus] at hpend
          exact MessageStatus.noConfusion hpend.2
        rw [messageStatusById_updateToProcessing_ne s.messages msg.id mid now hne]
        exact hst

/-- A late execution_complete for a message that is no longer processing
takes the already-stopped branch: the event row is still persisted, the
snapshot is triggered, the activity timer refreshed, the inactivity check
scheduled and the queue drained — but there is no completion broadcast, no
status update and no callback notification. -/
theorem processSandboxEvent_already_stopped (s1 : SState) (ev : SEvent) (eid : String)
    (now : Nat) (cid : String)
    (hty : ev.type = .executionComplete)
    (hmid : ev.messageId? = some cid)
    (hnone : getProcessingMessage s1.messages = none) :
    processSandboxEvent s1 ev eid now =
      processMessageQueue
        { s1 with
          events := s1.events ++
            [{ id := eid, type := ev.type, messageId := some cid, createdAt := now }],
          snapshotTriggers := s1.snapshotTriggers + 1,
          lastActivity := some now,
          inactivityCheckScheduled := true } now := by
  simp only [processSandboxEvent]
  rw [if_neg (by rw [hty]; exact fun hc => SEventType.noConfusion hc)]
  rw [hty]
  simp only [attributedMessageId, hmid, firstSome, hnone, Option.map_none']
  rfl

theorem processMessageQueue_lastActivity_of_eq (s : SState) (now : Nat)
    (h : s.lastActivity = some now) :
    (processMessageQueue s now).lastActivity = some now := by
  rcases (processMessageQueue_frame s now).2.2.2.2.2.1 with h2 | h2
  · rw [h2, h]
  · exact h2

/-- C3: after stopExecution on a processing message, the message is failed and
exactly one execution-complete broadcast was emitted for it; a late sandbox
execution_complete for that message leaves the failed status, emits no
further execution-complete broadcast and no further callback notification,
yet still triggers the snapshot, refreshes the activity timer, schedules the
inactivity check and runs the queue processor. -/
theorem C3_stop_then_late_completion (s : SState) (pm : Message) (ev : SEvent)
    (now1 now2 : Nat) (eid : String)
    (hids : (s.messages.map Message.id).Nodup)
    (hinv : processingCount s.messages ≤ 1)
    (hp : getProcessingMessage s.messages = some pm)
    (hty : ev.type = .executionComplete)
    (hmid : ev.messageId? = some pm.id) :
    messageStatusById
        (processSandboxEvent (stopExecution s now1) ev eid now2).messages pm.id
      = some .failed
    ∧ execCompleteBroadcastCount pm.id
          (processSandboxEvent (stopExecution s now1) ev eid now2).broadcasts
        = execCompleteBroadcastCount pm.id s.broadcasts + 1
    ∧ (processSandboxEvent (stopExecution s now1) ev eid now2).notifications
        = s.notifications ++ [(pm.id, false)]
    ∧ (processSandboxEvent (stopExecution s now1) ev eid now2).snapshotTriggers
        = s.snapshotTriggers + 1
    ∧ (processSandboxEvent (stopExecution s now1) ev eid now2).lastActivity = some now2
    ∧ (processSandboxEvent (stopExecution s now1) ev eid now2).inactivityCheckScheduled
        = true
    ∧ (processSandboxEvent (stopExecution s now1) ev eid now2).queueRuns
        = s.queueRuns + 1 := by
  obtain ⟨hm1, hb1, hn1, he1, hsn1, hla1, hic1, hq1⟩ := stopExecution_processing_spec s now1 pm hp
  have hnone : getProcessingMessage (stopExecution s now1).messages = none := by
    rw [hm1]
    exact getProcessingMessage_updateCompletion_none s.messages pm now1 hp hinv
  rw [processSandboxEvent_already_stopped (stopExecution s now1) ev eid now2 pm.id
    hty hmid hnone]
  refine ⟨?_, ?_, ?_, ?_, ?_, ?_, ?_⟩
  · refine messageStatusById_queue_preserves_failed _ now2 pm.id ?_ ?_
    · show (((stopExecution s now1).messages).map Message.id).Nodup
      rw [hm1, map_id_updateCompletion]
      exact hids
    · show messageStatusById (stopExecution s now1).messages pm.id = some .failed
      rw [hm1]
      exact messageStatusById_updateCompletion_self s.messages pm.id .failed now1
        ⟨pm, (getProcessingMessage_spec hp).1, rfl⟩
  · rw [(processMessageQueue_frame _ now2).2.2.2.2.2.2 pm.id]
    show execCompleteBroadcastCount pm.id (stopExecution s now1).broadcasts = _
    rw [hb1]
    simp [execCompleteBroadcastCount, List.countP_append, List.countP_cons,
      syntheticExecComplete]
  · rw [(processMessageQueue_frame _ now2).2.1]
    exact hn1
  · rw [(processMessageQueue_frame _ now2).2.2.1]
    show (stopExecution s now1).snapshotTriggers + 1 = s.snapshotTriggers + 1
    rw [hsn1]
  · exact processMessageQueue_lastActivity_of_eq _ now2 rfl
  · rw [(processMessageQueue_frame _ now2).2.2.2.1]
  · rw [(processMessageQueue_frame _ now2).2.2.2.2.1]
    show (stopExecution s now1).queueRuns + 1 = s.queueRuns + 1
    rw [hq1]

/-- The execution_complete event the sandbox sends for message "m1". -/
def execCompleteEventW : SEvent :=
  { type := .executionComplete, messageId? := some "m1", success := true,
    sha? := none, gitStatus := "", branchName? := none, error? := none }

/-- C3 witness: stopping the processing message "m1" and then receiving the
late sandbox completion for it leaves "m1" failed. -/
theorem C3_stop_then_late_completion_witness :
    messageStatusById
      (processSandboxEvent (stopExecution stateProcessing1 3) execCompleteEventW
        "e1" 9).messages "m1" = some .failed :=
  (C3_stop_then_late_completion stateProcessing1 msgProcessing1 execCompleteEventW 3 9 "e1"
    (by decide) (by decide) (by decide) rfl rfl).1

/-! ## Create-PR route (handleCreatePR, buildManualPrFallbackResponse)

Artifact rows carry a JSON metadata blob; parseArtifactMetadata yields null
for absent or unparsable metadata, modeled by Option. The provider URL
builder buildManualPullRequestUrl is an external collaborator, modeled as a
function from head and base branch to the URL. -/

structure ArtifactMeta where
  mode : Option String
  head : Option String
  base : Option String
  createPrUrl : Option String
  provider : Option String
  deriving DecidableEq

structure Artifact where
  id : String
  type : String
  url : String
  metadata : Option ArtifactMeta
  createdAt : Nat
  deriving DecidableEq

/-- getExistingManualBranchArtifact from the route handlers: the first
artifact of type "branch" whose parsed metadata has mode "manual_pr" and the
requested head branch. -/
def getExistingManualBranchArtifact : List Artifact → String → Option (Artifact × ArtifactMeta)
  | [], _ => none
  | a :: rest, hb =>
    if a.type ≠ "branch" then getExistingManualBranchArtifact rest hb
    else
      match a.metadata with
      | none => getExistingManualBranchArtifact rest hb
      | some meta =>
        if meta.mode = some "manual_pr" ∧ meta.head = some hb then some (a, meta)
        else getExistingManualBranchArtifact rest hb

/-- The second and third fallbacks of getCreatePrUrlFromManualArtifact: the
artifact url column when non-empty, else the freshly built URL. -/
def urlColumnOrFallback (a : Artifact) (fallbackUrl : String) : String :=
  if a.url.length > 0 then a.url else fallbackUrl

/-- getCreatePrUrlFromManualArtifact from the route handlers: prefer the
non-empty metadata createPrUrl, then the non-empty artifact url column, then
the freshly built URL. -/
def getCreatePrUrlFromManualArtifact (existing : Artifact × ArtifactMeta)
    (fallbackUrl : String) : String :=
  match existing.2.createPrUrl with
  | some u => if u.length > 0 then u else urlColumnOrFallback existing.1 fallbackUrl
  | none => urlColumnOrFallback existing.1 fallbackUrl

inductive PrResponse
  | conflict409
  | manual (createPrUrl headBranch baseBranch : String)
  | created (reqIndex : Nat)
  deriving DecidableEq

structure FallbackResult where
  artifacts : List Artifact
  response : PrResponse
  artifactBroadcasts : List String
  deriving DecidableEq

/-- The metadata stored on a manual-PR branch artifact. -/
def manualPrMeta (headBranch baseBranch manualCreatePrUrl providerName : String) :
    ArtifactMeta :=
  { mode := some "manual_pr", head := some headBranch, base := some baseBranch,
    createPrUrl := some manualCreatePrUrl, provider := some providerName }

/-- The manual-PR branch artifact the fallback stores. -/
def manualPrArtifact (newArtifactId headBranch baseBranch manualCreatePrUrl
    providerName : String) (now : Nat) : Artifact :=
  { id := newArtifactId, type := "branch", url := manualCreatePrUrl,
    metadata := some (manualPrMeta headBranch baseBranch manualCreatePrUrl providerName),
    createdAt := now }

/-- buildManualPrFallbackResponse from the route handlers: reuse the existing
manual-PR branch artifact for the head branch when one exists (responding with
its stored URL and creating nothing); otherwise store a new type "branch"
artifact with mode "manual_pr" metadata and the provider-built URL, broadcast
artifact_created, and respond with that URL. -/
def buildManualPrFallbackResponse (arts : List Artifact) (headBranch baseBranch : String)
    (manualCreatePrUrl : String) (newArtifactId : String) (now : Nat)
    (providerName : String) : FallbackResult :=
  match getExistingManualBranchArtifact arts headBranch with
  | some existing =>
    { artifacts := arts,
      response := .manual (getCreatePrUrlFromManualArtifact existing manualCreatePrUrl)
        headBranch baseBranch,
      artifactBroadcasts := [] }
  | none =>
    { artifacts := arts ++
        [manualPrArtifact newArtifactId headBranch baseBranch manualCreatePrUrl
          providerName now],
      response := .manual manualCreatePrUrl headBranch baseBranch,
      artifactBroadcasts := [newArtifactId] }

/-- handleCreatePR specialized to the path C6 describes: no PR artifact check
passes or fails as in the source, push auth and repository resolution succeed,
no sandbox socket is connected so pushBranchToRemote trivially succeeds, the
handler runs without interleaving (so the re-check sees the same artifacts),
and the prompting user has no usable OAuth credential, so the handler falls
back to buildManualPrFallbackResponse. -/
def createPrNoAuthFlow (arts : List Artifact) (headBranch baseBranch : String)
    (buildUrl : String → String → String) (providerName : String)
    (newArtifactId : String) (now : Nat) : FallbackResult :=
  if arts.any (fun a => decide (a.type = "pr")) then
    { artifacts := arts, response := .conflict409, artifactBroadcasts := [] }
  else if arts.any (fun a => decide (a.type = "pr")) then
    { artifacts := arts, response := .conflict409, artifactBroadcasts := [] }
  else
    buildManualPrFallbackResponse arts headBranch baseBranch
      (buildUrl headBranch baseBranch) newArtifactId now providerName

theorem getExistingManualBranchArtifact_append_self (arts : List Artifact)
    (hb : String) (art : Artifact) (meta : ArtifactMeta)
    (hnone : getExistingManualBranchArtifact arts hb = none)
    (htype : art.type = "branch")
    (hmeta : art.metadata = some meta)
    (hmode : meta.mode = some "manual_pr")
    (hhead : meta.head = some hb) :
    getExistingManualBranchArtifact (arts ++ [art]) hb = some (art, meta) := by
  induction arts with
  | nil =>
    simp only [List.nil_append, getExistingManualBranchArtifact, htype, hmeta]
    simp [htype, hmode, hhead]
  | cons a rest ih =>
    rw [List.cons_append]
    unfold getExistingManualBranchArtifact at hnone ⊢
    by_cases ht : a.type ≠ "branch"
    · rw [if_pos ht] at hnone ⊢
      exact ih hnone
    · rw [if_neg ht] at hnone ⊢
      cases hm : a.metadata with
      | none =>
        simp only [hm] at hnone ⊢
        exact ih hnone
      | some m =>
        simp only [hm] at hnone ⊢
        by_cases hc : m.mode = some "manual_pr" ∧ m.head = some hb
        · rw [if_pos hc] at hnone
          exact Option.noConfusion hnone
        · rw [if_neg hc] at hnone ⊢
          exact ih hnone

/-- C6: with no usable OAuth credential and no sandbox connected, create-PR
responds with the manual-PR fallback carrying the provider-built URL and
stores a type "branch" artifact with mode "manual_pr"; a second create-PR
call for the same head branch reuses that artifact — same URL in the
response, no new artifact. -/
theorem C6_manual_pr_fallback_reuse (arts : List Artifact) (hb bb pname id1 id2 : String)
    (buildUrl : String → String → String) (now1 now2 : Nat)
    (hnopr : arts.any (fun a => decide (a.type = "pr")) = false)
    (hnomanual : getExistingManualBranchArtifact arts hb = none)
    (hurl : (buildUrl hb bb).length > 0) :
    (createPrNoAuthFlow arts hb bb buildUrl pname id1 now1).response
        = .manual (buildUrl hb bb) hb bb
    ∧ (createPrNoAuthFlow arts hb bb buildUrl pname id1 now1).artifacts
        = arts ++ [manualPrArtifact id1 hb bb (buildUrl hb bb) pname now1]
    ∧ (createPrNoAuthFlow
          (createPrNoAuthFlow arts hb bb buildUrl pname id1 now1).artifacts
          hb bb buildUrl pname id2 now2).response
        = .manual (buildUrl hb bb) hb bb
    ∧ (createPrNoAuthFlow
          (createPrNoAuthFlow arts hb bb buildUrl pname id1 now1).artifacts
          hb bb buildUrl pname id2 now2).artifacts
        = (createPrNoAuthFlow arts hb bb buildUrl pname id1 now1).artifacts := by
  have hfalse : ¬ (arts.any (fun a => decide (a.type = "pr")) = true) := by
    rw [hnopr]
    exact Bool.false_ne_true
  have h1 : createPrNoAuthFlow arts hb bb buildUrl pname id1 now1 =
      { artifacts := arts ++ [manualPrArtifact id1 hb bb (buildUrl hb bb) pname now1],
        response := .manual (buildUrl hb bb) hb bb,
        artifactBroadcasts := [id1] } := by
    unfold createPrNoAuthFlow
    rw [if_neg hfalse, if_neg hfalse]
    unfold buildManualPrFallbackResponse
    simp only [hnomanual]
  have hany1 : ((arts ++ [manualPrArtifact id1 hb bb (buildUrl hb bb) pname now1]).any
      (fun a => decide (a.type = "pr"))) = false := by
    rw [List.any_append, hnopr]
    rfl
  have hfalse1 : ¬ (((arts ++ [manualPrArtifact id1 hb bb (buildUrl hb bb) pname now1]).any
      (fun a => decide (a.type = "pr"))) = true) := by
    rw [hany1]
    exact Bool.false_ne_true
  have hexist : getExistingManualBranchArtifact
      (arts ++ [manualPrArtifact id1 hb bb (buildUrl hb bb) pname now1]) hb
      = some (manualPrArtifact id1 hb bb (buildUrl hb bb) pname now1,
              manualPrMeta hb bb (buildUrl hb bb) pname) :=
    getExistingManualBranchArtifact_append_self arts hb _ _ hnomanual rfl rfl rfl rfl
  have h4 : getCreatePrUrlFromManualArtifact
      (manualPrArtifact id1 hb bb (buildUrl hb bb) pname now1,
       manualPrMeta hb bb (buildUrl hb bb) pname) (buildUrl hb bb) = buildUrl hb bb := by
    unfold getCreatePrUrlFromManualArtifact manualPrMeta
    simp [hurl]
  have h3 : createPrNoAuthFlow
      (arts ++ [manualPrArtifact id1 hb bb (buildUrl hb bb) pname now1])
      hb bb buildUrl pname id2 now2 =
      { artifacts := arts ++ [manualPrArtifact id1 hb bb (buildUrl hb bb) pname now1],
        response := .manual (buildUrl hb bb) hb bb,
        artifactBroadcasts := [] } := by
    unfold createPrNoAuthFlow
    rw [if_neg hfalse1, if_neg hfalse1]
    unfold buildManualPrFallbackResponse
    simp only [hexist, h4]
  rw [h1]
  refine ⟨rfl, rfl, ?_, ?_⟩
  · show (createPrNoAuthFlow
        (arts ++ [manualPrArtifact id1 hb bb (buildUrl hb bb) pname now1])
        hb bb buildUrl pname id2 now2).response = .manual (buildUrl hb bb) hb bb
    rw [h3]
  · show (createPrNoAuthFlow
        (arts ++ [manualPrArtifact id1 hb bb (buildUrl hb bb) pname now1])
        hb bb buildUrl pname id2 now2).artifacts
      = arts ++ [manualPrArtifact id1 hb bb (buildUrl hb bb) pname now1]
    rw [h3]

/-- C6 witness: on a fresh session, two create-PR calls for head branch
"feat" produce one manual artifact, the second call creating nothing. -/
theorem C6_manual_pr_fallback_reuse_witness :
    (createPrNoAuthFlow
        (createPrNoAuthFlow [] "feat" "main" (fun _ _ => "u") "github" "a1" 1).artifacts
        "feat" "main" (fun _ _ => "u") "github" "a2" 2).artifacts
      = (createPrNoAuthFlow [] "feat" "main" (fun _ _ => "u") "github" "a1" 1).artifacts :=
  (C6_manual_pr_fallback_reuse [] "feat" "main" "github" "a1" "a2" (fun _ _ => "u") 1 2
    rfl rfl (by decide)).2.2.2

/-! ### Interleaving model of concurrent create-PR requests

The session actor runs one handler body at a time, but handleCreatePR
suspends at each await: after the initial PR-artifact check (push auth
generation, repository resolution, the push itself) and again after the
re-check (user auth resolution, the createPullRequest call). Two invocations
can therefore interleave at those points. The model runs each request from
one suspension point to the next under a scheduler, on the success path where
provider calls succeed and the PR is created. -/

/-- Where one handleCreatePR invocation currently is. -/
inductive PrPhase
  | atStart
  | atPush
  | atCreate
  | finished (r : PrResponse)
  deriving DecidableEq

structure RaceState where
  artifacts : List Artifact
  requests : List PrPhase
  deriving DecidableEq

/-- The PR artifact stored by request reqIndex (its metadata records PR
number, state, head and base; only the type column matters here). -/
def prArtifact (reqIndex : Nat) : Artifact :=
  { id := toString reqIndex, type := "pr", url := "",
    metadata := none, createdAt := reqIndex }

/-- One scheduler step: run request i from its suspension point to the next.
atStart performs the initial artifact check and suspends in the push phase;
atPush resumes after the asynchronous push and performs the re-check, then
suspends in the auth-resolution/createPullRequest awaits; atCreate resumes
after createPullRequest succeeded and stores the PR artifact. -/
def stepCreatePr (st : RaceState) (i : Nat) : RaceState :=
  match st.requests.get? i with
  | none => st
  | some .atStart =>
    if st.artifacts.any (fun a => decide (a.type = "pr")) then
      { st with requests := st.requests.set i (.finished .conflict409) }
    else
      { st with requests := st.requests.set i .atPush }
  | some .atPush =>
    if st.artifacts.any (fun a => decide (a.type = "pr")) then
      { st with requests := st.requests.set i (.finished .conflict409) }
    else
      { st with requests := st.requests.set i .atCreate }
  | some .atCreate =>
    { st with
      artifacts := st.artifacts ++ [prArtifact i],
      requests := st.requests.set i (.finished (.created i)) }
  | some (.finished _) => st

def runCreatePrSchedule (st : RaceState) (sched : List Nat) : RaceState :=
  sched.foldl stepCreatePr st

def prArtifactCount (arts : List Artifact) : Nat :=
  arts.countP (fun a => decide (a.type = "pr"))

/-- Both the initial check and the re-check reject with 409 whenever a PR
artifact exists at that point. -/
theorem stepCreatePr_conflict (st : RaceState) (i : Nat)
    (hpr : st.artifacts.any (fun a => decide (a.type = "pr")) = true)
    (hph : st.requests.get? i = some .atStart ∨ st.requests.get? i = some .atPush) :
    stepCreatePr st i =
      { st with requests := st.requests.set i (.finished .conflict409) } := by
  rcases hph with h | h <;>
    · unfold stepCreatePr
      simp only [h]
      rw [if_pos hpr]

/-- Sequential requests behave: the first creates the PR artifact, the second
is rejected by the initial check. -/
theorem createPr_sequential_conflict :
    prArtifactCount (runCreatePrSchedule
      { artifacts := [], requests := [.atStart, .atStart] } [0, 0, 0, 1]).artifacts = 1
    ∧ (runCreatePrSchedule { artifacts := [], requests := [.atStart, .atStart] }
        [0, 0, 0, 1]).requests.get? 1 = some (.finished .conflict409) :=
  ⟨rfl, rfl⟩

/-- When the second request interleaves only at the push suspension point and
the first then runs to completion, the re-check rejects the second. -/
theorem createPr_recheck_blocks_second :
    (runCreatePrSchedule { artifacts := [], requests := [.atStart, .atStart] }
      [0, 1, 0, 0, 1]).requests.get? 1 = some (.finished .conflict409)
    ∧ prArtifactCount (runCreatePrSchedule
        { artifacts := [], requests := [.atStart, .atStart] } [0, 1, 0, 0, 1]).artifacts
      = 1 :=
  ⟨rfl, rfl⟩

/-- C2: the at-most-one-PR-artifact claim fails on the code for interleavings
that suspend after the re-check: two concurrent create-PR requests that both
pass the re-check before either createPullRequest call returns store two PR
artifacts, because the re-check runs before the user-auth-resolution and
createPullRequest awaits rather than immediately before the artifact write. -/
theorem C2_interleaved_create_pr_two_artifacts :
    prArtifactCount (runCreatePrSchedule
      { artifacts := [], requests := [.atStart, .atStart] }
      [0, 1, 0, 1, 0, 1]).artifacts = 2 :=
  rfl

end BackgroundAgents
